import Mathlib

/-!
Verification of the rize-mcp-server core: the metrics normalizer
(`getSummaries` in `src/services/rize-api.ts`), the caching layer
(`CacheService` in `src/services/cache.ts`), the date compatibility shim
(`formatting.ts`), and the tool handlers (`src/index.ts`).

Conventions of the shallow embedding:
* JS numbers holding second/minute counts from the remote API are modelled as
  `ℕ` (a missing field, coalesced by `|| 0` in the source, is modelled as `0`;
  JS truthiness of a number is `≠ 0`).
* `Math.floor (x / 60)` on such values is `ℕ` division `x / 60`.
* `Math.round x` for nonnegative `x` is `⌊x + 1/2⌋` over `ℚ`.
* A fallible remote fetch is an explicit `Except Err _` argument: the function
  receives the outcome of the network call instead of performing it.
* Epoch-millisecond timestamps are modelled as `ℤ`.
-/

namespace Rize

abbrev Err := String

/-- JS `Math.round` on a nonnegative value: round half up, `⌊q + 1/2⌋`. -/
def jsRound (q : ℚ) : ℤ := Int.floor (q + 1/2)

/-- Raw GraphQL category object `category { name idle focus work }`. -/
structure RawCategory where
  name : String
  idle : Bool
  focus : Bool
  work : Bool
deriving Repr, DecidableEq

/-- One element of `bucket.categories`: `{ category, timeSpent }`,
`timeSpent` in seconds. -/
structure RawCategoryEntry where
  category : RawCategory
  timeSpent : ℕ
deriving Repr, DecidableEq

/-- One raw summary bucket of the GraphQL response, seconds-denominated. -/
structure RawBucket where
  date : String
  focusTime : ℕ
  breakTime : ℕ
  meetingTime : ℕ
  trackedTime : ℕ
  categories : List RawCategoryEntry
deriving Repr, DecidableEq

/-- The `summaries` object of the response, carrying the bucket list. -/
structure RawSummaries where
  buckets : List RawBucket
deriving Repr, DecidableEq

/-- The whole GraphQL response; `summaries` may be absent
(the source reads `response.summaries?.buckets || []`). -/
structure SummariesResponse where
  summaries : Option RawSummaries
deriving Repr, DecidableEq

/-- The value stored in `topCategory`: the source initialises it with the
string `'Work'` (`let topCategory: any = 'Work'`) and, when the bucket has
categories, overwrites it with an object `{ name, timeSpent, focus }`. -/
inductive TopCategoryVal
  | str (s : String)
  | obj (name : String) (timeSpent : ℕ) (focus : Bool)
deriving Repr, DecidableEq

/-- The normalized per-day record (`RizeProductivityMetrics` in
`src/types/rize.ts`), minute-denominated. -/
structure RizeProductivityMetrics where
  date : String
  totalFocusTime : ℕ
  productivityScore : ℤ
  focusSessionsCount : ℕ
  topCategory : TopCategoryVal
  breakTime : ℕ
  distractionTime : ℕ
  contextSwitches : ℕ
deriving Repr, DecidableEq

/-- `bucket.categories.reduce((prev, curr) => curr.timeSpent > prev.timeSpent ? curr : prev)`:
JS `reduce` with no initial value starts from the first element, so for the
list `c :: cs` it is a left fold over `cs` starting at `c`. -/
def reduceTopCat (c : RawCategoryEntry) (cs : List RawCategoryEntry) : RawCategoryEntry :=
  cs.foldl (fun prev curr => if prev.timeSpent < curr.timeSpent then curr else prev) c

/-- `bucket.focusTime && bucket.trackedTime ? Math.round((bucket.focusTime / bucket.trackedTime) * 100) : 0`. -/
def bucketScore (focusTime trackedTime : ℕ) : ℤ :=
  if focusTime ≠ 0 ∧ trackedTime ≠ 0 then
    jsRound ((focusTime : ℚ) / (trackedTime : ℚ) * 100)
  else 0

/-- The body of the `buckets.map` callback in `getSummaries`
(`src/services/rize-api.ts`). -/
def normalizeBucket (bucket : RawBucket) : RizeProductivityMetrics :=
  match bucket.categories with
  | [] =>
    { date := bucket.date
      totalFocusTime := bucket.focusTime / 60
      productivityScore := bucketScore bucket.focusTime bucket.trackedTime
      focusSessionsCount := 0
      topCategory := .str "Work"
      breakTime := bucket.breakTime / 60
      distractionTime := bucket.meetingTime / 60
      contextSwitches := 0 }
  | c :: cs =>
    let topCat := reduceTopCat c cs
    { date := bucket.date
      totalFocusTime := bucket.focusTime / 60
      productivityScore := bucketScore bucket.focusTime bucket.trackedTime
      focusSessionsCount :=
        if topCat.category.focus = true then (if 0 < topCat.timeSpent then 1 else 0) else 0
      topCategory := .obj topCat.category.name (topCat.timeSpent / 60) topCat.category.focus
      breakTime := bucket.breakTime / 60
      distractionTime := bucket.meetingTime / 60
      contextSwitches := 0 }

/-- `getSummaries`: the whole body is wrapped in `try/catch` with
`catch (error) { return []; }`, so a failed fetch yields `[]`; on success the
buckets (defaulting to `[]` when `summaries` is absent) are mapped through the
normalizer. The function is total: no error is propagated to the caller. -/
def getSummaries (fetch : Except Err SummariesResponse) : List RizeProductivityMetrics :=
  match fetch with
  | .error _ => []
  | .ok response => ((response.summaries.map RawSummaries.buckets).getD []).map normalizeBucket

/-- Claim C1: for every bucket, `productivityScore` equals
`round(focusTime / trackedTime * 100)` on the raw second values when
`trackedTime > 0` and `0` when `trackedTime = 0`; the concrete bucket with
`focusTime = 6337`, `trackedTime = 7200` yields `totalFocusTime = 105` and
`productivityScore = 88`. -/
theorem productivityScore_spec :
    (∀ b : RawBucket, (normalizeBucket b).productivityScore =
      if 0 < b.trackedTime then jsRound ((b.focusTime : ℚ) / (b.trackedTime : ℚ) * 100) else 0)
    ∧ (normalizeBucket ⟨"2025-09-22", 6337, 0, 0, 7200, []⟩).totalFocusTime = 105
    ∧ (normalizeBucket ⟨"2025-09-22", 6337, 0, 0, 7200, []⟩).productivityScore = 88 := by
  refine ⟨?_, ?_, ?_⟩
  · intro b
    have hscore : ∀ bkt : RawBucket, (normalizeBucket bkt).productivityScore =
        bucketScore bkt.focusTime bkt.trackedTime := by
      intro bkt
      rcases h : bkt.categories with _ | ⟨c, cs⟩ <;> simp [normalizeBucket, h]
    rw [hscore]
    unfold bucketScore
    rcases Nat.eq_zero_or_pos b.trackedTime with ht | ht
    · simp [ht]
    · rcases Nat.eq_zero_or_pos b.focusTime with hf | hf
      · rw [if_neg (by simp [hf]), if_pos ht, hf]
        unfold jsRound
        norm_num
      · rw [if_pos ⟨by omega, by omega⟩, if_pos ht]
  · rfl
  · show bucketScore 6337 7200 = 88
    unfold bucketScore jsRound
    rw [if_pos (by norm_num)]
    rw [Int.floor_eq_iff]
    norm_num

/-- Claim C3: if the remote fetch inside `getSummaries` fails, the result is
`[]`, exactly the value returned for a response with no buckets; nothing is
thrown (the embedding of `getSummaries` is a total function into a list). -/
theorem getSummaries_failure_empty (e : Err) (resp : SummariesResponse)
    (h : (resp.summaries.map RawSummaries.buckets).getD [] = []) :
    getSummaries (Except.error e) = []
    ∧ getSummaries (Except.ok resp) = getSummaries (Except.error e) := by
  constructor
  · rfl
  · simp [getSummaries, h]

/-- Witness for C3: a concrete failed fetch and a concrete no-data response
(`summaries` absent) both yield `[]`. -/
theorem getSummaries_failure_empty_witness :
    getSummaries (Except.error "network error") = []
    ∧ getSummaries (Except.ok ⟨none⟩) = getSummaries (Except.error "network error") :=
  getSummaries_failure_empty "network error" ⟨none⟩ rfl

/-- `List.find?` only depends on the values of the predicate on the list. -/
theorem find_congr_on {α : Type} (l : List α) (p q : α → Bool) (h : ∀ x ∈ l, p x = q x) :
    l.find? p = l.find? q := by
  induction l with
  | nil => rfl
  | cons a t ih =>
    have ha := h a (List.mem_cons_self a t)
    by_cases hpa : p a = true
    · rw [List.find?_cons_of_pos _ hpa, List.find?_cons_of_pos _ (ha ▸ hpa)]
    · rw [List.find?_cons_of_neg _ (by simpa using hpa),
        List.find?_cons_of_neg _ (by rw [← ha]; simpa using hpa)]
      exact ih (fun x hx => h x (List.mem_cons_of_mem a hx))

/-- The left fold underlying the source's `reduce` (strict `>` keeps `prev` on
ties) returns the first-encountered entry with maximal `timeSpent`: it equals
`find?` of the is-a-maximum predicate over the whole list. -/
theorem reduceTopCat_first_max (cs : List RawCategoryEntry) (c : RawCategoryEntry) :
    (c :: cs).find? (fun d => decide (∀ e ∈ c :: cs, e.timeSpent ≤ d.timeSpent))
      = some (reduceTopCat c cs) := by
  induction cs generalizing c with
  | nil =>
    rw [List.find?_cons_of_pos]
    · rfl
    · simp
  | cons a t ih =>
    have hstep : reduceTopCat c (a :: t)
        = reduceTopCat (if c.timeSpent < a.timeSpent then a else c) t := rfl
    rw [hstep, ← ih (if c.timeSpent < a.timeSpent then a else c)]
    by_cases hlt : c.timeSpent < a.timeSpent
    · rw [if_pos hlt]
      have hpq : ∀ x ∈ (c :: a :: t),
          (decide (∀ e ∈ c :: a :: t, e.timeSpent ≤ x.timeSpent))
            = (decide (∀ e ∈ a :: t, e.timeSpent ≤ x.timeSpent)) := by
        intro x _
        apply decide_eq_decide.mpr
        constructor
        · intro hall e he
          exact hall e (List.mem_cons_of_mem c he)
        · intro hall e he
          rcases List.mem_cons.mp he with rfl | he'
          · have := hall a (List.mem_cons_self a t)
            omega
          · exact hall e he'
      rw [find_congr_on _ _ _ hpq]
      rw [List.find?_cons_of_neg (p := fun x : RawCategoryEntry => decide (∀ e ∈ a :: t, e.timeSpent ≤ x.timeSpent))]
      simp only [decide_eq_true_eq]
      intro hall
      have := hall a (List.mem_cons_self a t)
      omega
    · rw [if_neg hlt]
      have hpq : ∀ x ∈ (c :: a :: t),
          (decide (∀ e ∈ c :: a :: t, e.timeSpent ≤ x.timeSpent))
            = (decide (∀ e ∈ c :: t, e.timeSpent ≤ x.timeSpent)) := by
        intro x _
        apply decide_eq_decide.mpr
        constructor
        · intro hall e he
          rcases List.mem_cons.mp he with rfl | he'
          · exact hall e (List.mem_cons_self e _)
          · exact hall e (List.mem_cons_of_mem c (List.mem_cons_of_mem a he'))
        · intro hall e he
          rcases List.mem_cons.mp he with rfl | he'
          · exact hall e (List.mem_cons_self e _)
          · rcases List.mem_cons.mp he' with rfl | he''
            · have := hall c (List.mem_cons_self c t)
              omega
            · exact hall e (List.mem_cons_of_mem c he'')
      rw [find_congr_on _ _ _ hpq]
      by_cases hc : ∀ e ∈ c :: t, e.timeSpent ≤ c.timeSpent
      · rw [List.find?_cons_of_pos
            (p := fun x : RawCategoryEntry => decide (∀ e ∈ c :: t, e.timeSpent ≤ x.timeSpent)) _ (by simpa using hc),
          List.find?_cons_of_pos
            (p := fun x : RawCategoryEntry => decide (∀ e ∈ c :: t, e.timeSpent ≤ x.timeSpent)) _ (by simpa using hc)]
      · have hQc : ¬ (decide (∀ e ∈ c :: t, e.timeSpent ≤ c.timeSpent) = true) := by
          simpa using hc
        have hQa : ¬ (decide (∀ e ∈ c :: t, e.timeSpent ≤ a.timeSpent) = true) := by
          simp only [decide_eq_true_eq]
          intro hall
          exact hc fun e he => le_trans (hall e he) (Nat.le_of_not_lt hlt)
        rw [List.find?_cons_of_neg
            (p := fun x : RawCategoryEntry => decide (∀ e ∈ c :: t, e.timeSpent ≤ x.timeSpent)) _ hQc,
          List.find?_cons_of_neg
            (p := fun x : RawCategoryEntry => decide (∀ e ∈ c :: t, e.timeSpent ≤ x.timeSpent)) _ hQa,
          List.find?_cons_of_neg
            (p := fun x : RawCategoryEntry => decide (∀ e ∈ c :: t, e.timeSpent ≤ x.timeSpent)) _ hQc]

/-- Claim C2: for a bucket with a nonempty category list, the selected top
category is exactly the first-encountered entry whose `timeSpent` is maximal
(the deterministic tie-break of `find?` in iteration order), and the
normalized `topCategory` reports that entry's `timeSpent` floor-divided
by 60. -/
theorem topCategory_spec (b : RawBucket) (hne : b.categories ≠ []) :
    ∃ c, b.categories.find?
          (fun d => decide (∀ e ∈ b.categories, e.timeSpent ≤ d.timeSpent)) = some c
      ∧ c ∈ b.categories
      ∧ (∀ e ∈ b.categories, e.timeSpent ≤ c.timeSpent)
      ∧ (normalizeBucket b).topCategory
          = .obj c.category.name (c.timeSpent / 60) c.category.focus := by
  rcases h : b.categories with _ | ⟨c0, cs⟩
  · exact absurd h hne
  · have hfind := reduceTopCat_first_max cs c0
    refine ⟨reduceTopCat c0 cs, ?_, ?_, ?_, ?_⟩
    · exact hfind
    · exact List.mem_of_find?_eq_some hfind
    · simpa using List.find?_some hfind
    · simp [normalizeBucket, h]

/-- A concrete bucket whose two categories tie on `timeSpent`. -/
def tieBucket : RawBucket :=
  ⟨"2025-09-22", 6337, 0, 0, 7200,
    [⟨⟨"Coding", false, true, true⟩, 120⟩, ⟨⟨"Email", false, false, true⟩, 120⟩]⟩

/-- Witness for C2: on a concrete tie, the first-encountered entry is picked. -/
theorem topCategory_spec_witness :
    ∃ c, tieBucket.categories.find?
          (fun d => decide (∀ e ∈ tieBucket.categories, e.timeSpent ≤ d.timeSpent)) = some c
      ∧ c ∈ tieBucket.categories
      ∧ (∀ e ∈ tieBucket.categories, e.timeSpent ≤ c.timeSpent)
      ∧ (normalizeBucket tieBucket).topCategory
          = .obj c.category.name (c.timeSpent / 60) c.category.focus :=
  topCategory_spec tieBucket (by decide)

/-- Claim C7: `focusSessionsCount` is `1` exactly when the selected top
category is focus-flagged and its raw `timeSpent` is positive, else `0`;
a bucket with an empty category list keeps the fixed placeholder
`topCategory = 'Work'` and `focusSessionsCount = 0`. -/
theorem focusSessionsCount_spec (b : RawBucket) :
    (∀ c cs, b.categories = c :: cs →
      ((normalizeBucket b).focusSessionsCount = 1
          ↔ ((reduceTopCat c cs).category.focus = true ∧ 0 < (reduceTopCat c cs).timeSpent))
        ∧ ((normalizeBucket b).focusSessionsCount = 1
            ∨ (normalizeBucket b).focusSessionsCount = 0))
    ∧ (b.categories = [] →
        (normalizeBucket b).topCategory = .str "Work"
          ∧ (normalizeBucket b).focusSessionsCount = 0) := by
  constructor
  · intro c cs h
    simp only [normalizeBucket, h]
    by_cases hfoc : (reduceTopCat c cs).category.focus = true
    · by_cases hts : 0 < (reduceTopCat c cs).timeSpent
      · simp [hfoc, hts]
      · simp [hfoc, hts]
    · simp [hfoc]
  · intro h
    simp [normalizeBucket, h]

/-- Witness for C7: the tie bucket instantiates the nonempty branch, where the
picked category is focus-flagged with positive time, and an empty-category
bucket instantiates the placeholder branch. -/
theorem focusSessionsCount_spec_witness :
    ((∀ c cs, tieBucket.categories = c :: cs →
      ((normalizeBucket tieBucket).focusSessionsCount = 1
          ↔ ((reduceTopCat c cs).category.focus = true ∧ 0 < (reduceTopCat c cs).timeSpent))
        ∧ ((normalizeBucket tieBucket).focusSessionsCount = 1
            ∨ (normalizeBucket tieBucket).focusSessionsCount = 0))
    ∧ (tieBucket.categories = [] →
        (normalizeBucket tieBucket).topCategory = .str "Work"
          ∧ (normalizeBucket tieBucket).focusSessionsCount = 0))
    ∧ (normalizeBucket tieBucket).focusSessionsCount = 1 :=
  ⟨focusSessionsCount_spec tieBucket, by decide⟩

/-- Modelled from the spec: the backing store of `CacheService`
(`src/services/cache.ts`) is the external `lru-cache` npm package, whose code
is not part of this repository. One entry of its store:
`(key, value, insertedAt)` (spec §3, CacheEntry). -/
structure CacheEntry (V : Type) where
  key : String
  value : V
  insertedAt : ℕ
deriving Repr, DecidableEq

/-- Modelled from the spec: the `lru-cache` store behind `CacheService`, a
bounded key-value store with per-entry expiration and capacity-based LRU
eviction. `entries` is kept in most-recently-used-first order, so the
least-recently-used entry is the last one. Times are epoch milliseconds. -/
structure Cache (V : Type) where
  maxSize : ℕ
  ttl : ℕ
  entries : List (CacheEntry V)
deriving Repr, DecidableEq

namespace Cache

variable {V : Type}

/-- Modelled from the spec: `set(key, value)` inserts or overwrites; the
entry counts as used on write, so it goes to the front; if over capacity the
least-recently-used entries (the tail beyond `maxSize`) are evicted. -/
def set (c : Cache V) (now : ℕ) (k : String) (v : V) : Cache V :=
  { c with entries :=
      (⟨k, v, now⟩ :: c.entries.filter (fun e => e.key ≠ k)).take c.maxSize }

/-- Modelled from the spec: `get(key)` returns absent if the key was never
set, was removed, or its age exceeds the configured time-to-live (the stale
entry is destroyed by the expiration check at read time); a live entry counts
as used on read and moves to the front. -/
def get (c : Cache V) (now : ℕ) (k : String) : Option V × Cache V :=
  match c.entries.find? (fun e => e.key = k) with
  | none => (none, c)
  | some e =>
    if c.ttl < now - e.insertedAt then
      (none, { c with entries := c.entries.filter (fun x => x.key ≠ k) })
    else
      (some e.value, { c with entries := e :: c.entries.filter (fun x => x.key ≠ k) })

/-- Modelled from the spec: `delete(key)` removes the entry for the key. -/
def delete (c : Cache V) (k : String) : Cache V :=
  { c with entries := c.entries.filter (fun e => e.key ≠ k) }

/-- Modelled from the spec: `clear()` removes every entry. -/
def clear (c : Cache V) : Cache V :=
  { c with entries := [] }

/-- Modelled from the spec: `has(key)` is true exactly for a present,
unexpired entry. -/
def has (c : Cache V) (now : ℕ) (k : String) : Bool :=
  match c.entries.find? (fun e => e.key = k) with
  | none => false
  | some e => decide (¬ c.ttl < now - e.insertedAt)

/-- `size()`: the number of stored entries. -/
def size (c : Cache V) : ℕ := c.entries.length

/-- Removing the entries of one key finds nothing for that key afterwards. -/
theorem find_filter_ne (l : List (CacheEntry V)) (k : String) :
    (l.filter (fun e => e.key ≠ k)).find? (fun e => e.key = k) = none := by
  rw [List.find?_eq_none]
  intro e he
  have := (List.mem_filter.mp he).2
  simpa using this

/-- `get` does not change the configured capacity. -/
theorem get_maxSize (c : Cache V) (now : ℕ) (k : String) :
    (c.get now k).2.maxSize = c.maxSize := by
  unfold get
  rcases h : c.entries.find? (fun e => e.key = k) with _ | e
  · rw [h]
  · rw [h]
    split
    all_goals first | rfl | (split <;> rfl)

/-- `get` does not change the configured ttl. -/
theorem get_ttl (c : Cache V) (now : ℕ) (k : String) :
    (c.get now k).2.ttl = c.ttl := by
  unfold get
  rcases h : c.entries.find? (fun e => e.key = k) with _ | e
  · rw [h]
  · rw [h]
    split
    all_goals first | rfl | (split <;> rfl)

/-- A `set` followed by a `get` of the same key within the ttl hits and
returns the stored value (the capacity must be positive for the entry to
survive the insertion). -/
theorem get_set_live (c : Cache V) (k : String) (v : V) (t u : ℕ)
    (hpos : 0 < c.maxSize) (hlive : ¬ c.ttl < u - t) :
    ((c.set t k v).get u k).1 = some v := by
  have hhead : (c.set t k v).entries
      = ⟨k, v, t⟩ :: (c.entries.filter (fun e => e.key ≠ k)).take (c.maxSize - 1) := by
    simp only [set]
    obtain ⟨m, hm⟩ : ∃ m, c.maxSize = m + 1 := ⟨c.maxSize - 1, by omega⟩
    rw [hm, List.take_succ_cons]
    norm_num
  have hfind : (c.set t k v).entries.find? (fun e => e.key = k) = some ⟨k, v, t⟩ := by
    rw [hhead]
    exact List.find?_cons_of_pos _ (by simp)
  simp only [get, hfind]
  rw [if_neg (show ¬ (c.set t k v).ttl < u - t from hlive)]

end Cache

/-- Claim C4: the cache never holds more than `maxSize` entries; a `set` at
capacity with a fresh key evicts exactly the least-recently-used entry (the
last in most-recent-first order), the old list decomposing as the survivors
followed by the evicted entry; and an entry counts as used on write (`set`
places it at the front) and on read (a live `get` moves it to the front). -/
theorem cache_lru_eviction {V : Type} (c : Cache V) (now : ℕ) (k : String) (v : V)
    (hfull : c.entries.length = c.maxSize) (hpos : 0 < c.maxSize)
    (hnew : ∀ e ∈ c.entries, e.key ≠ k) :
    (∀ (d : Cache V) (t : ℕ) (key : String) (w : V), (d.set t key w).size ≤ d.maxSize)
    ∧ (c.set now k v).entries = ⟨k, v, now⟩ :: c.entries.dropLast
    ∧ (∃ lru, c.entries.getLast? = some lru
        ∧ c.entries = c.entries.dropLast ++ [lru])
    ∧ (∀ (d : Cache V) (t : ℕ) (key : String) (w : V), 0 < d.maxSize →
        (d.set t key w).entries.head? = some ⟨key, w, t⟩)
    ∧ (∀ (d : Cache V) (t : ℕ) (key : String) e,
        d.entries.find? (fun x => x.key = key) = some e →
        ¬ d.ttl < t - e.insertedAt →
        (d.get t key).2.entries.head? = some e) := by
  have hne : c.entries ≠ [] := by
    intro h
    rw [h] at hfull
    simp at hfull
    omega
  refine ⟨?_, ?_, ?_, ?_, ?_⟩
  · intro d t key w
    simp only [Cache.set, Cache.size]
    exact List.length_take_le _ _
  · simp only [Cache.set]
    have hfilter : c.entries.filter (fun e => e.key ≠ k) = c.entries := by
      rw [List.filter_eq_self]
      intro e he
      simpa using hnew e he
    rw [hfilter]
    obtain ⟨m, hm⟩ : ∃ m, c.maxSize = m + 1 := ⟨c.maxSize - 1, by omega⟩
    rw [hm, List.take_succ_cons]
    congr 1
    rw [List.dropLast_eq_take, hfull, hm]
    norm_num
  · refine ⟨c.entries.getLast hne, List.getLast?_eq_getLast _ hne, ?_⟩
    exact (List.dropLast_append_getLast hne).symm
  · intro d t key w hdpos
    simp only [Cache.set]
    obtain ⟨m, hm⟩ : ∃ m, d.maxSize = m + 1 := ⟨d.maxSize - 1, by omega⟩
    rw [hm, List.take_succ_cons]
    rfl
  · intro d t key e hfind hlive
    simp only [Cache.get, hfind, if_neg hlive]
    rfl

/-- Witness for C4: a two-entry cache at capacity 2; inserting a fresh key
evicts the least-recently-used entry `"b"` and keeps `"a"`. -/
theorem cache_lru_eviction_witness :
    (∀ (d : Cache ℕ) (t : ℕ) (key : String) (w : ℕ), (d.set t key w).size ≤ d.maxSize)
    ∧ ((⟨2, 1000, [⟨"a", 1, 5⟩, ⟨"b", 2, 0⟩]⟩ : Cache ℕ).set 9 "c" 3).entries
        = ⟨"c", 3, 9⟩ :: ([⟨"a", 1, 5⟩, ⟨"b", 2, 0⟩] : List (CacheEntry ℕ)).dropLast
    ∧ (∃ lru, ([⟨"a", 1, 5⟩, ⟨"b", 2, 0⟩] : List (CacheEntry ℕ)).getLast? = some lru
        ∧ ([⟨"a", 1, 5⟩, ⟨"b", 2, 0⟩] : List (CacheEntry ℕ))
            = ([⟨"a", 1, 5⟩, ⟨"b", 2, 0⟩] : List (CacheEntry ℕ)).dropLast ++ [lru])
    ∧ (∀ (d : Cache ℕ) (t : ℕ) (key : String) (w : ℕ), 0 < d.maxSize →
        (d.set t key w).entries.head? = some ⟨key, w, t⟩)
    ∧ (∀ (d : Cache ℕ) (t : ℕ) (key : String) e,
        d.entries.find? (fun x => x.key = key) = some e →
        ¬ d.ttl < t - e.insertedAt →
        (d.get t key).2.entries.head? = some e) :=
  cache_lru_eviction ⟨2, 1000, [⟨"a", 1, 5⟩, ⟨"b", 2, 0⟩]⟩ 9 "c" 3 rfl
    (by decide) (by decide)

/-- Claim C5: `set(k, v)` then an immediate `get(k)` returns `v`; once the
entry's age exceeds the ttl, `get(k)` returns absent; and after `delete(k)`
or `clear()`, `has(k)` is false. -/
theorem cache_get_set_ttl {V : Type} (c : Cache V) (k : String) (v : V) (t : ℕ)
    (hpos : 0 < c.maxSize) :
    ((c.set t k v).get t k).1 = some v
    ∧ (∀ u, c.ttl < u - t → ((c.set t k v).get u k).1 = none)
    ∧ (∀ now, (c.delete k).has now k = false)
    ∧ (∀ now, c.clear.has now k = false) := by
  have hhead : (c.set t k v).entries
      = ⟨k, v, t⟩ :: (c.entries.filter (fun e => e.key ≠ k)).take (c.maxSize - 1) := by
    simp only [Cache.set]
    obtain ⟨m, hm⟩ : ∃ m, c.maxSize = m + 1 := ⟨c.maxSize - 1, by omega⟩
    rw [hm, List.take_succ_cons]
    norm_num
  have hfind : (c.set t k v).entries.find? (fun e => e.key = k)
      = some ⟨k, v, t⟩ := by
    rw [hhead]
    exact List.find?_cons_of_pos _ (by simp)
  refine ⟨?_, ?_, ?_, ?_⟩
  · simp only [Cache.get, hfind]
    rw [if_neg (by omega)]
  · intro u hu
    simp only [Cache.get, hfind]
    rw [if_pos (show (c.set t k v).ttl < u - t by simpa [Cache.set] using hu)]
  · intro now
    simp only [Cache.has, Cache.delete, Cache.find_filter_ne]
  · intro now
    simp only [Cache.has, Cache.clear, List.find?_nil]

/-- Witness for C5: a concrete empty cache of capacity 1000 and ttl 300000ms;
set-then-get returns the value, a read 300001ms later misses, and
delete/clear make `has` false. -/
theorem cache_get_set_ttl_witness :
    (((⟨1000, 300000, []⟩ : Cache ℕ).set 0 "current-user" 7).get 0 "current-user").1 = some 7
    ∧ (∀ u, (300000 : ℕ) < u - 0 →
        (((⟨1000, 300000, []⟩ : Cache ℕ).set 0 "current-user" 7).get u "current-user").1 = none)
    ∧ (∀ now, ((⟨1000, 300000, []⟩ : Cache ℕ).delete "current-user").has now "current-user" = false)
    ∧ (∀ now, (⟨1000, 300000, []⟩ : Cache ℕ).clear.has now "current-user" = false) :=
  cache_get_set_ttl ⟨1000, 300000, []⟩ "current-user" 7 0 (by decide)

/-- The productivity-metrics service call with the service's cache threaded
through explicitly. The source method `getSummaries` never reads or writes
`this.cache` (unlike `getCurrentUser` and `getAnalytics`), so the cache state
passes through unchanged and the result depends only on the fetch outcome. -/
def getSummariesS (cache : Cache (List RizeProductivityMetrics))
    (fetch : Except Err SummariesResponse) :
    List RizeProductivityMetrics × Cache (List RizeProductivityMetrics) :=
  (getSummaries fetch, cache)

/-- A concrete one-bucket response used as a successful fetch outcome. -/
def sampleResponse : SummariesResponse :=
  ⟨some ⟨[⟨"2025-09-22", 6337, 0, 0, 7200, []⟩]⟩⟩

/-- Counterexample to C8 as stated: a successful fetch with a nonempty
normalized payload leaves an initially empty cache empty, so the payload is
NOT stored in the cache under any key before the result is returned. -/
theorem get_productivity_metrics_no_store_cex :
    (getSummariesS ⟨1000, 300000, []⟩ (Except.ok sampleResponse)).1 ≠ []
    ∧ (getSummariesS ⟨1000, 300000, []⟩ (Except.ok sampleResponse)).2.entries = [] := by
  constructor
  · simp [getSummariesS, getSummaries, sampleResponse]
  · rfl

/-- Claim C8 amended: the productivity-metrics operation performs no cache
interaction at all: the cache is returned unchanged (nothing is stored) and
the returned metrics do not depend on the cache contents (no lookup can
short-circuit the remote fetch, which always happens). -/
theorem get_productivity_metrics_no_cache (c d : Cache (List RizeProductivityMetrics))
    (fetch : Except Err SummariesResponse) :
    (getSummariesS c fetch).2 = c
    ∧ (getSummariesS c fetch).1 = (getSummariesS d fetch).1
    ∧ (getSummariesS c fetch).1 = getSummaries fetch :=
  ⟨rfl, rfl, rfl⟩

/-- A raw session of the GraphQL `sessions` query; times are epoch ms. -/
structure RawSession where
  id : String
  startTime : ℤ
  endTime : Option ℤ
  title : String
deriving Repr, DecidableEq

/-- The mapped focus session (the fields of `RizeFocusSession` relevant to
the session claims; the remaining fields are constant sentinels). -/
structure RizeFocusSession where
  id : String
  startTime : ℤ
  endTime : Option ℤ
  duration : ℤ
  title : String
deriving Repr, DecidableEq

def msPerDay : ℤ := 86400000

/-- Modelled from the spec: the remote GraphQL `sessions(startTime, endTime)`
query is an external collaborator (spec §1 out-of-scope list); it returns
the stored sessions whose start time lies in the requested window. -/
def remoteSessions (store : List RawSession) (a b : ℤ) : List RawSession :=
  store.filter (fun s => a ≤ s.startTime ∧ s.startTime ≤ b)

/-- The session mapper inside `getFocusSessions`: `duration` (in minutes) is
`Math.floor((end - start) / 60000)` when both times are truthy, else `0`. -/
def toFocusSession (s : RawSession) : RizeFocusSession :=
  { id := s.id
    startTime := s.startTime
    endTime := s.endTime
    duration :=
      match s.endTime with
      | some e => if e ≠ 0 ∧ s.startTime ≠ 0 then Int.fdiv (e - s.startTime) 60000 else 0
      | none => 0
    title := s.title }

/-- `getFocusSessions(startDate)`: the query window is the start date
00:00:00.000 through 23:59:59.999 of the SAME day
(`const endDateTime = new Date(startDate); endDateTime.setHours(23, 59, 59, 999)`).
A `YYYY-MM-DD` start date is modelled by its day number. -/
def getFocusSessions (store : List RawSession) (startDay : ℤ) : List RizeFocusSession :=
  (remoteSessions store (startDay * msPerDay) (startDay * msPerDay + 86399999)).map
    toFocusSession

/-- The `get_focus_sessions` tool handler (`src/index.ts`): validates the
range (`DateRangeSchema` rejects end before start), calls `getFocusSessions`
with only the start date (the validated end date is never passed on), then
applies the minimum-duration filter when the parameter is supplied and
nonzero (`if (minDuration)` is JS truthiness). -/
def get_focus_sessions (store : List RawSession) (startDay endDay : ℤ)
    (minDuration : Option ℤ) : Except Err (List RizeFocusSession) :=
  if startDay ≤ endDay then
    let sessions := getFocusSessions store startDay
    match minDuration with
    | some m =>
      if m ≠ 0 then Except.ok (sessions.filter (fun s => m ≤ s.duration))
      else Except.ok sessions
    | none => Except.ok sessions
  else Except.error "End date must be after or equal to start date"

/-- A session starting at 01:00 on day 1 (epoch ms), lasting 30 minutes. -/
def day1Session : RawSession := ⟨"s1", 90000000, some 91800000, "deep work"⟩

/-- A 5-minute session on day 0. -/
def day0Short : RawSession := ⟨"s2", 3600000, some 3900000, "email"⟩

/-- A 60-minute session on day 0. -/
def day0Long : RawSession := ⟨"s3", 7200000, some 10800000, "focus"⟩

/-- Claim C9 (code bug): requesting the range [day 0, day 1] never returns a
session starting on day 1, because the handler queries the remote only for
[day 0 00:00:00.000, day 0 23:59:59.999]: `endDate` is validated but ignored,
although the tool schema and README document date-range semantics. Querying
the full claimed window would have returned the session. The
minimum-duration half of the claim does hold on the start day. -/
theorem get_focus_sessions_endDate_ignored :
    get_focus_sessions [day1Session] 0 1 none = Except.ok []
    ∧ (0 * msPerDay ≤ day1Session.startTime
        ∧ day1Session.startTime ≤ 1 * msPerDay + 86399999)
    ∧ remoteSessions [day1Session] (0 * msPerDay) (1 * msPerDay + 86399999)
        = [day1Session]
    ∧ get_focus_sessions [day0Short, day0Long] 0 0 (some 30)
        = Except.ok [toFocusSession day0Long] := by
  refine ⟨by rfl, by decide, by decide, by rfl⟩

/-- The `timeframe` parameter of `getAnalytics`. -/
inductive Timeframe
  | day
  | week
  | month
deriving Repr, DecidableEq

/-- The string form interpolated into the cache key template literal. -/
def Timeframe.toStr : Timeframe → String
  | .day => "day"
  | .week => "week"
  | .month => "month"

/-- JS string interpolation of a boolean. -/
def boolStr : Bool → String
  | true => "true"
  | false => "false"

/-- The cache key of `getAnalytics`: `analytics-` timeframe `-` includeInsights. -/
def analyticsCacheKey (tf : Timeframe) (ii : Bool) : String :=
  "analytics-" ++ tf.toStr ++ "-" ++ boolStr ii

/-- An insight entry (`RizeInsight` in `src/types/rize.ts`); `getAnalytics`
always produces an empty insight list. -/
structure RizeInsight where
  id : String
  title : String
  description : String
  priority : String
  category : String
deriving Repr, DecidableEq

/-- `trends` of the analytics object: total focus minutes and mean
productivity score over the metrics (JS number division modelled in ℚ);
`consistency` is fixed at 0. -/
structure Trends where
  focusTime : ℚ
  productivityScore : ℚ
  consistency : ℚ
deriving Repr, DecidableEq

/-- `RizeAnalytics` from `src/types/rize.ts`. -/
structure RizeAnalytics where
  timeframe : Timeframe
  metrics : List RizeProductivityMetrics
  insights : List RizeInsight
  trends : Trends
deriving Repr, DecidableEq

/-- `getAnalytics(timeframe, includeInsights)`: cache lookup under the
derived key, returning a cached object when present (`if (cached) return
cached`; cached values are objects, hence always truthy); on a miss the
date range is derived from the timeframe and `getSummaries` is called — the
outcome of its remote call is the `fetch` argument, and its internal
try/catch already maps any failure to an empty metrics list, which makes the
catch branch of `getAnalytics` itself unreachable and the zeroed analytics
object arise from the empty list on the success path; the object is stored
in the cache under the key and returned. Times are epoch ms. -/
def getAnalytics (c : Cache RizeAnalytics) (tf : Timeframe) (ii : Bool) (now : ℕ)
    (fetch : Except Err SummariesResponse) : RizeAnalytics × Cache RizeAnalytics :=
  match c.get now (analyticsCacheKey tf ii) with
  | (some cached, c') => (cached, c')
  | (none, c') =>
    let metrics := getSummaries fetch
    let analytics : RizeAnalytics :=
      { timeframe := tf
        metrics := metrics
        insights := []
        trends :=
          { focusTime := metrics.foldl (fun s m => s + (m.totalFocusTime : ℚ)) 0
            productivityScore :=
              if 0 < metrics.length then
                (metrics.foldl (fun s m => s + (m.productivityScore : ℚ)) 0)
                  / (metrics.length : ℚ)
              else 0
            consistency := 0 } }
    (analytics, c'.set now (analyticsCacheKey tf ii) analytics)

/-- The analytics value produced when the remote fetch failed: empty metrics
and insights, all three trends 0. -/
def zeroAnalytics (tf : Timeframe) : RizeAnalytics :=
  { timeframe := tf, metrics := [], insights := [], trends := ⟨0, 0, 0⟩ }

/-- Claim C10: when the remote call fails and the key misses the cache,
`getAnalytics` returns the zeroed analytics value (empty metrics/insights,
all trends 0), stores it under `analytics-<timeframe>-<includeInsights>`, and
every later call with the same arguments within the ttl returns that cached
zeroed value whatever the remote would answer (no fetch is consulted). -/
theorem getAnalytics_failure_cached (c : Cache RizeAnalytics) (tf : Timeframe)
    (ii : Bool) (now : ℕ) (e : Err)
    (hmiss : (c.get now (analyticsCacheKey tf ii)).1 = none)
    (hpos : 0 < c.maxSize) :
    (getAnalytics c tf ii now (Except.error e)).1 = zeroAnalytics tf
    ∧ (∀ u, u - now ≤ c.ttl →
        (((getAnalytics c tf ii now (Except.error e)).2).get u
            (analyticsCacheKey tf ii)).1 = some (zeroAnalytics tf))
    ∧ (∀ u fetch, u - now ≤ c.ttl →
        (getAnalytics ((getAnalytics c tf ii now (Except.error e)).2) tf ii u fetch).1
          = zeroAnalytics tf) := by
  have hget : c.get now (analyticsCacheKey tf ii)
      = (none, (c.get now (analyticsCacheKey tf ii)).2) := by
    rcases hg : c.get now (analyticsCacheKey tf ii) with ⟨o, cc⟩
    rw [hg] at hmiss
    simp only at hmiss
    rw [hmiss]
  have hrun : getAnalytics c tf ii now (Except.error e)
      = (zeroAnalytics tf,
          ((c.get now (analyticsCacheKey tf ii)).2).set now (analyticsCacheKey tf ii)
            (zeroAnalytics tf)) := by
    simp only [getAnalytics]
    rw [hget]
    rfl
  have hpos' : 0 < ((c.get now (analyticsCacheKey tf ii)).2).maxSize := by
    rw [Cache.get_maxSize]
    exact hpos
  have hstored : ∀ u, u - now ≤ c.ttl →
      ((((c.get now (analyticsCacheKey tf ii)).2).set now (analyticsCacheKey tf ii)
          (zeroAnalytics tf)).get u (analyticsCacheKey tf ii)).1
        = some (zeroAnalytics tf) := by
    intro u hu
    apply Cache.get_set_live _ _ _ _ _ hpos'
    rw [Cache.get_ttl]
    omega
  refine ⟨?_, ?_, ?_⟩
  · rw [hrun]
  · intro u hu
    rw [hrun]
    exact hstored u hu
  · intro u fetch hu
    rw [hrun]
    simp only [getAnalytics]
    rcases hg2 : (((c.get now (analyticsCacheKey tf ii)).2).set now
        (analyticsCacheKey tf ii) (zeroAnalytics tf)).get u (analyticsCacheKey tf ii)
      with ⟨o2, cc2⟩
    have := hstored u hu
    rw [hg2] at this
    simp only at this
    rw [this]

/-- Witness for C10: the service's cache (capacity 1000, ttl 300000ms) starts
empty; a failed fetch for the day timeframe caches the zeroed report under
`analytics-day-true`, and a later call 200000ms on returns it for any fetch
outcome. -/
theorem getAnalytics_failure_cached_witness :
    (getAnalytics ⟨1000, 300000, []⟩ Timeframe.day true 0 (Except.error "network")).1
      = zeroAnalytics Timeframe.day
    ∧ (∀ u, u - 0 ≤ (300000 : ℕ) →
        (((getAnalytics ⟨1000, 300000, []⟩ Timeframe.day true 0
            (Except.error "network")).2).get u (analyticsCacheKey Timeframe.day true)).1
          = some (zeroAnalytics Timeframe.day))
    ∧ (∀ u fetch, u - 0 ≤ (300000 : ℕ) →
        (getAnalytics ((getAnalytics ⟨1000, 300000, []⟩ Timeframe.day true 0
            (Except.error "network")).2) Timeframe.day true u fetch).1
          = zeroAnalytics Timeframe.day) :=
  getAnalytics_failure_cached ⟨1000, 300000, []⟩ Timeframe.day true 0 "network"
    rfl (by decide)

/-- The `replace(' ', 'T')` step of `convertRizeDateToISO`: JS
`String.replace` with a STRING pattern replaces only the first occurrence. -/
def replaceFirstSpaceWithT : List Char → List Char
  | [] => []
  | ch :: cs => if ch = ' ' then 'T' :: cs else ch :: replaceFirstSpaceWithT cs

/-- The second `replace` step, with the trailing-offset regular expression
anchored at the end of the string: when the string ends in a sign followed by
four digits, a colon is inserted between the two digit pairs; otherwise the
string is unchanged. -/
def rewriteTrailingOffset (cs : List Char) : List Char :=
  match cs.reverse with
  | d4 :: d3 :: d2 :: d1 :: sgn :: rest =>
    if (sgn = '+' ∨ sgn = '-') ∧ d1.isDigit ∧ d2.isDigit ∧ d3.isDigit ∧ d4.isDigit then
      (d4 :: d3 :: ':' :: d2 :: d1 :: sgn :: rest).reverse
    else cs
  | _ => cs

/-- `convertRizeDateToISO` (`src/utils/formatting.ts`): throws on a missing
or empty string, else applies the two replacements. Its own comment
documents the intended result `2025-09-05T04:00:00+02:00`. -/
def convertRizeDateToISO (s : String) : Except Err String :=
  if s = "" then Except.error "Invalid date string"
  else Except.ok (String.mk (rewriteTrailingOffset (replaceFirstSpaceWithT s.data)))

/-- Modelled from the spec: `format(parseISO(isoDate), 'yyyy-MM-dd HH:mm:ss')`
comes from the external date-fns library, not part of this repository. Per
the spec the conversion must produce "the standard combined date-time
format"; a standard combined form contains no space, so a string still
containing one fails to parse; otherwise the ten date characters and the
first eight time characters after the separator are rendered separated by a
space. -/
def renderISODateTime (s : String) : Except Err String :=
  if s.data.contains ' ' then Except.error "Invalid time value"
  else
    let date := s.data.takeWhile (fun ch => ch ≠ 'T')
    let time := ((s.data.dropWhile (fun ch => ch ≠ 'T')).drop 1).take 8
    if date.length = 10 ∧ time.length = 8 then
      Except.ok (String.mk (date ++ ' ' :: time))
    else Except.error "Invalid time value"

/-- `formatDateTime`: the body is `try { ... } catch { return the
placeholder }`; a non-string input (modelled as `none`) makes the conversion
throw, as does an empty string or a failed parse. -/
def formatDateTime (input : Option String) : String :=
  match input with
  | none => "Invalid DateTime"
  | some s =>
    match convertRizeDateToISO s with
    | .error _ => "Invalid DateTime"
    | .ok iso =>
      match renderISODateTime iso with
      | .error _ => "Invalid DateTime"
      | .ok out => out

/-- Claim C6 (code bug): the conversion replaces the first space and rewrites
the trailing offset as claimed, but the SECOND space (before the offset)
survives: `convertRizeDateToISO` yields `2025-09-05T04:00:00 +02:00`, not the
`2025-09-05T04:00:00+02:00` its own comment documents; the leftover space is
not a standard combined date-time, so rendering fails and `formatDateTime`
yields the placeholder instead of the claimed `2025-09-05 04:00:00`. The
non-string and empty-input halves of the claim do hold, and the documented
conversion target would have rendered exactly the claimed display. -/
theorem formatDateTime_space_bug :
    convertRizeDateToISO "2025-09-05 04:00:00 +0200"
      = Except.ok "2025-09-05T04:00:00 +02:00"
    ∧ "2025-09-05T04:00:00 +02:00" ≠ "2025-09-05T04:00:00+02:00"
    ∧ formatDateTime (some "2025-09-05 04:00:00 +0200") = "Invalid DateTime"
    ∧ formatDateTime none = "Invalid DateTime"
    ∧ formatDateTime (some "") = "Invalid DateTime"
    ∧ renderISODateTime "2025-09-05T04:00:00+02:00"
        = Except.ok "2025-09-05 04:00:00" := by
  refine ⟨by rfl, by decide, by rfl, by rfl, by rfl, by rfl⟩

end Rize
